import Mathlib

/-!
# Verification of the WebGLLayer geometry-to-buffer pipeline

A shallow embedding of `src/WebGLLayer.js`: the projection helpers, the
packed-color encoding, the view-transform matrix helpers, and the GeoJSON
ingestion state machine (`loadData` / `processPolygon` / `changePolyColor`),
together with theorems settling the specification's claims about them.

Modelling conventions:
* JS numbers are modelled as `ℚ` (the claims under study are exact-arithmetic
  statements about structure and bookkeeping, not float rounding).
* The libtess tesselator is an external dependency, not part of the
  repository; the ingestion machine is parameterised over it as a function
  from projected contours to either an error number (libtess invokes
  `WebGLLayer.errorCallback_`, which throws) or the list of emitted
  triangles.  The registered `GLU_TESS_EDGE_FLAG` callback forces libtess to
  emit independent triangles, so the `GLU_TESS_VERTEX_DATA` callback fires
  exactly three times per triangle.
* `latToY_` is transcendental (log/tan), so the ingestion machine is also
  parameterised over the projection `coordsToXY_`; no claim under study
  depends on the numeric values of projected coordinates.
* Mutation of `feature.properties` (`index`, `indexStart`, `indexEnd`) is
  modelled by returning a `Stamp` value per ingested feature.
-/

namespace WebGLLayer

/-- Embeds `WebGLLayer.lngToX_` (src/WebGLLayer.js lines 205-210): longitude to
horizontal world coordinate, with the branch on `lng > 180`. -/
def lngToX (lng : ℚ) : ℚ :=
  if lng > 180 then 256 * (lng / 360 - 1/2)
  else 256 * (lng / 360 + 1/2)

/-- The per-channel quantisation inside `WebGLLayer.packColor`
(src/WebGLLayer.js line 220-222): `Math.floor(c * 128 + 0.5)`. -/
def quant (c : ℚ) : ℤ := ⌊c * 128 + 1/2⌋

/-- Embeds `WebGLLayer.packColor` (src/WebGLLayer.js lines 217-223): packs an
`(r, g, b)` triple into one scalar,
`floor(r*128+0.5) + floor(b*128+0.5)*129 + floor(g*128+0.5)*129*129`. -/
def packColor (color : ℚ × ℚ × ℚ) : ℤ :=
  quant color.1 + quant color.2.2 * 129 + quant color.2.1 * (129 * 129)

/-- A 4x4 column-major transform matrix, 16 entries as in the
`Float32Array(16)` of the source. -/
structure Mat4 where
  m0 : ℚ
  m1 : ℚ
  m2 : ℚ
  m3 : ℚ
  m4 : ℚ
  m5 : ℚ
  m6 : ℚ
  m7 : ℚ
  m8 : ℚ
  m9 : ℚ
  m10 : ℚ
  m11 : ℚ
  m12 : ℚ
  m13 : ℚ
  m14 : ℚ
  m15 : ℚ
deriving DecidableEq, Repr

/-- Embeds `WebGLLayer.scaleMatrix_` (src/WebGLLayer.js lines 252-263): multiply
entries 0-3 by `scaleX` and entries 4-7 by `scaleY`. -/
def scaleMatrix (matrix : Mat4) (scaleX scaleY : ℚ) : Mat4 :=
  { matrix with
    m0 := matrix.m0 * scaleX
    m1 := matrix.m1 * scaleX
    m2 := matrix.m2 * scaleX
    m3 := matrix.m3 * scaleX
    m4 := matrix.m4 * scaleY
    m5 := matrix.m5 * scaleY
    m6 := matrix.m6 * scaleY
    m7 := matrix.m7 * scaleY }

/-- Embeds `WebGLLayer.translateMatrix_` (src/WebGLLayer.js lines 272-278): add the
translation into the last column. -/
def translateMatrix (matrix : Mat4) (tx ty : ℚ) : Mat4 :=
  { matrix with
    m12 := matrix.m12 + matrix.m0 * tx + matrix.m4 * ty
    m13 := matrix.m13 + matrix.m1 * tx + matrix.m5 * ty
    m14 := matrix.m14 + matrix.m2 * tx + matrix.m6 * ty
    m15 := matrix.m15 + matrix.m3 * tx + matrix.m7 * ty }

/-- The matrix pipeline of `WebGLLayer.prototype.update`
(src/WebGLLayer.js lines 583-591): copy the base pixels-to-WebGL matrix,
scale both axes by `2^zoom`, then translate by the negated top-left offset. -/
def computeMapMatrix (zoom : ℕ) (offsetX offsetY : ℚ) (base : Mat4) : Mat4 :=
  translateMatrix (scaleMatrix base ((2 : ℚ) ^ zoom) ((2 : ℚ) ^ zoom))
    (-offsetX) (-offsetY)

/-! ## The ingestion state machine -/

/-- A raw `(lng, lat)` coordinate pair, and also a projected `(x, y)` pair. -/
abbrev Coord := ℚ × ℚ

/-- A triangle emitted by the tesselator: three `(x, y)` vertices. -/
abbrev Triangle := Coord × Coord × Coord

/-- The tesselator interface: projected contours in, either a libtess error
number (the error callback throws) or the emitted triangle list. -/
abbrev Tess := List (List Coord) → Except ℕ (List Triangle)

/-- The geometry of a GeoJSON feature, as dispatched on by
`WebGLLayer.prototype.loadData` (src/WebGLLayer.js line 428): a `Point`, a
`Polygon` (list of rings), a `MultiPolygon` (list of ring-sets), or any
other type (which falls through the `switch` untouched). -/
inductive Geometry where
  | point (coordinates : Coord)
  | polygon (coordinates : List (List Coord))
  | multiPolygon (coordinates : List (List (List Coord)))
  | otherType
deriving DecidableEq, Repr

/-- The index metadata `loadData` writes into `feature.properties`. -/
inductive Stamp where
  | pointIndex (index : ℕ)
  | polyRange (indexStart indexEnd : ℕ)
  | skipped
deriving DecidableEq, Repr

/-- The `this.features_.points` record (src/WebGLLayer.js lines 81-87). -/
structure PointsState where
  defaultColor : ℚ × ℚ × ℚ
  floats : List ℚ
  count : ℕ
  changed : Bool
deriving DecidableEq, Repr

/-- The `this.features_.polygons` record (src/WebGLLayer.js lines 88-98). -/
structure PolygonsState where
  floats : List ℚ
  count : ℕ
  borderFloats : List ℚ
  borderCount : ℕ
  borderCounts : List ℕ
  changed : Bool
deriving DecidableEq, Repr

/-- The feature buffers of one `WebGLLayer`. -/
structure LayerState where
  points : PointsState
  polygons : PolygonsState
deriving DecidableEq, Repr

/-- The initial `this.features_` object built by the constructor
(src/WebGLLayer.js lines 80-99). -/
def initialState : LayerState :=
  { points := { defaultColor := (1, 0, 0), floats := [], count := 0, changed := false }
    polygons := { floats := [], count := 0, borderFloats := [], borderCount := 0,
                  borderCounts := [], changed := false } }

/-- Embeds `WebGLLayer.vertexCallback_` (src/WebGLLayer.js lines 286-290): each
emitted vertex appends its x, its y, and `packColor([1,0,0])`. -/
def vertexCallback (data : Coord) : List ℚ :=
  [data.1, data.2, ((packColor (1, 0, 0) : ℤ) : ℚ)]

/-- The floats appended to the local `polyVertArray` for one emitted
triangle: the vertex callback fires once per corner. -/
def triangleFloats (t : Triangle) : List ℚ :=
  vertexCallback t.1 ++ vertexCallback t.2.1 ++ vertexCallback t.2.2

/-- The `borderPoints` accumulated by the contour loop of
`WebGLLayer.prototype.processPolygon` (src/WebGLLayer.js lines 480-494):
for every ring vertex, its projected x, projected y, and
`packColor([0,0,0])`. -/
def borderFloatsOf (contours : List (List Coord)) : List ℚ :=
  (contours.map (fun contour =>
    (contour.map (fun xy =>
      [xy.1, xy.2, ((packColor (0, 0, 0) : ℤ) : ℚ)])).flatten)).flatten

/-- The projection of every ring vertex performed inside the contour loop of
`processPolygon` (src/WebGLLayer.js line 483, `WebGLLayer.coordsToXY_`). -/
def projectContours (proj : Coord → Coord) (coordinates : List (List Coord)) :
    List (List Coord) :=
  coordinates.map (fun contour => contour.map proj)

/-- Embeds `WebGLLayer.prototype.processPolygon` (src/WebGLLayer.js lines 473-503),
parameterised over the tesselator `tess` and the projection `proj`
(`WebGLLayer.coordsToXY_` in the source).  A tesselation error throws out of
`gluTessEndPolygon` before any field of `this.features_.polygons` is
written, so the error case leaves the state untouched. -/
def processPolygon (tess : Tess) (proj : Coord → Coord)
    (coordinates : List (List Coord)) (s : PolygonsState) :
    Except ℕ PolygonsState :=
  let contours := projectContours proj coordinates
  let borderPoints := borderFloatsOf contours
  match tess contours with
  | .error errno => .error errno
  | .ok triangles =>
      let polyVerts := (triangles.map triangleFloats).flatten
      .ok { s with
        borderFloats := s.borderFloats ++ borderPoints
        borderCount := s.borderCount + borderPoints.length / 3
        floats := s.floats ++ polyVerts
        count := s.count + polyVerts.length / 3 }

/-- The `MultiPolygon` part loop of `loadData` (src/WebGLLayer.js lines
455-459): for each constituent polygon, snapshot `borderCount`, process the
ring-set, and push the `borderCount` delta onto `borderCounts`. -/
def processParts (tess : Tess) (proj : Coord → Coord) :
    List (List (List Coord)) → PolygonsState → Except ℕ PolygonsState
  | [], s => .ok s
  | part :: parts, s =>
      let borderCount := s.borderCount
      match processPolygon tess proj part s with
      | .error errno => .error errno
      | .ok s' =>
          processParts tess proj parts
            { s' with borderCounts := s'.borderCounts ++ [s'.borderCount - borderCount] }

/-- One iteration of the feature loop of `WebGLLayer.prototype.loadData`
(src/WebGLLayer.js lines 423-465): dispatch on the geometry type, mutate
the buffers, and stamp the feature's index metadata. -/
def loadFeature (tess : Tess) (proj : Coord → Coord) (g : Geometry)
    (s : LayerState) : Except ℕ (LayerState × Stamp) :=
  match g with
  | .point coordinates =>
      let xy := proj coordinates
      .ok ({ s with points :=
              { s.points with
                floats := s.points.floats ++
                  [xy.1, xy.2, ((packColor s.points.defaultColor : ℤ) : ℚ)]
                count := s.points.count + 1
                changed := true } },
           .pointIndex s.points.count)
  | .polygon coordinates =>
      let indexStart := s.polygons.count
      let borderCount := s.polygons.borderCount
      match processPolygon tess proj coordinates s.polygons with
      | .error errno => .error errno
      | .ok p =>
          let p' := { p with
            borderCounts := p.borderCounts ++ [p.borderCount - borderCount]
            changed := true }
          .ok ({ s with polygons := p' }, .polyRange indexStart p'.count)
  | .multiPolygon coordinates =>
      let indexStart := s.polygons.count
      match processParts tess proj coordinates s.polygons with
      | .error errno => .error errno
      | .ok p =>
          .ok ({ s with polygons := { p with changed := true } },
               .polyRange indexStart p.count)
  | .otherType => .ok (s, .skipped)

/-- Embeds `WebGLLayer.prototype.loadData` (src/WebGLLayer.js lines 422-467) over a
whole payload: the feature loop has no try/catch, so an exception thrown by
the tesselation error callback propagates out of `loadData`. -/
def loadData (tess : Tess) (proj : Coord → Coord) :
    List Geometry → LayerState → Except ℕ (LayerState × List Stamp)
  | [], s => .ok (s, [])
  | g :: gs, s =>
      match loadFeature tess proj g s with
      | .error errno => .error errno
      | .ok (s', st) =>
          match loadData tess proj gs s' with
          | .error errno => .error errno
          | .ok (s'', sts) => .ok (s'', st :: sts)

/-- Embeds `WebGLLayer.prototype.changePolyColor` (src/WebGLLayer.js lines
378-384): `for (var i = idxStart; i <= idxEnd; i++)` overwrite
`floats[i*3 + 2]` with the packed color, then set the dirty flag. -/
def changePolyColor (idxStart idxEnd : ℕ) (color : ℚ × ℚ × ℚ)
    (p : PolygonsState) : PolygonsState :=
  { p with
    floats := (List.range' idxStart (idxEnd + 1 - idxStart)).foldl
      (fun fs i => fs.set (i * 3 + 2) ((packColor color : ℤ) : ℚ)) p.floats
    changed := true }

/-! ## Concrete instances for witnesses and counterexamples -/

/-- A unit-square outer ring (already in world coordinates). -/
def squareRing : List Coord := [(0, 0), (1, 0), (1, 1), (0, 1)]

/-- The two triangles a tesselation of the unit square emits. -/
def squareTriangles : List Triangle :=
  [((0, 0), (1, 0), (1, 1)), ((0, 0), (1, 1), (0, 1))]

/-- A concrete instance of the external tesselator: on the unit square it
emits the two standard triangles, on any other input it emits nothing. -/
def tessSquare : Tess := fun contours =>
  if contours = [squareRing] then .ok squareTriangles else .ok []

/-- A degenerate two-vertex ring, on which a tesselator may fail. -/
def degenerateRing : List Coord := [(0, 0), (1, 1)]

/-- A concrete instance of the external tesselator that reports the libtess
fatal error `100151` on the degenerate ring and succeeds elsewhere. -/
def tessFailing : Tess := fun contours =>
  if contours = [degenerateRing] then .error 100151 else .ok []

/-- The layer state after ingesting one unit-square `Polygon` into the
initial state with `tessSquare` (fill color packs to `128`, border color to
`0`). -/
def squareLoaded : LayerState :=
  { points := initialState.points
    polygons :=
      { floats := [0, 0, 128, 1, 0, 128, 1, 1, 128, 0, 0, 128, 1, 1, 128, 0, 1, 128]
        count := 6
        borderFloats := [0, 0, 0, 1, 0, 0, 1, 1, 0, 0, 1, 0]
        borderCount := 4
        borderCounts := [4]
        changed := true } }

/-- The layer state after ingesting one `Point` at `(1, 2)` into the initial
state (the default point color `(1,0,0)` packs to `128`). -/
def pointLoaded : LayerState :=
  { points := { defaultColor := (1, 0, 0), floats := [1, 2, 128], count := 1, changed := true }
    polygons := initialState.polygons }

/-- The layer state after ingesting a `MultiPolygon` with two empty parts
into the initial state. -/
def emptyPartsLoaded : LayerState :=
  { points := initialState.points
    polygons := { floats := [], count := 0, borderFloats := [], borderCount := 0,
                  borderCounts := [0, 0], changed := true } }

/-- A polygon buffer holding two vertex triples, all floats zero. -/
def demoPolyState : PolygonsState :=
  { floats := [0, 0, 0, 0, 0, 0], count := 2, borderFloats := [], borderCount := 0,
    borderCounts := [], changed := false }

/-! ## Basic lemmas -/

theorem quant_nonneg {c : ℚ} (h0 : 0 ≤ c) : 0 ≤ quant c := by
  have : (0 : ℚ) ≤ c * 128 + 1/2 := by nlinarith
  exact Int.le_floor.mpr (by exact_mod_cast this)

theorem quant_le_128 {c : ℚ} (h1 : c ≤ 1) : quant c ≤ 128 := by
  have : c * 128 + 1/2 < 129 := by nlinarith
  have h := Int.floor_lt.mpr (by exact_mod_cast this : c * 128 + 1/2 < ((129 : ℤ) : ℚ))
  rw [quant]
  omega

/-! ## Claims about pure functions -/

/-- C9: `lngToX lng` equals `256*(lng/360 + 1/2)` when `lng ≤ 180` and
`256*(lng/360 - 1/2)` otherwise; the jump at the antimeridian is witnessed
by `lngToX 180 = 256` while `lngToX` just past `180` is below `1`. -/
theorem lngToX_piecewise (lng : ℚ) :
    (lng ≤ 180 → lngToX lng = 256 * (lng / 360 + 1/2)) ∧
    (180 < lng → lngToX lng = 256 * (lng / 360 - 1/2)) ∧
    lngToX 180 = 256 ∧ lngToX (180 + 1/1000000) < 1 := by
  refine ⟨fun h => ?_, fun h => ?_, ?_, ?_⟩
  · rw [lngToX, if_neg (not_lt.mpr h)]
  · rw [lngToX, if_pos h]
  · norm_num [lngToX]
  · norm_num [lngToX]

theorem lngToX_piecewise_witness :
    lngToX 90 = 256 * (90 / 360 + 1/2) ∧ lngToX 200 = 256 * (200 / 360 - 1/2) :=
  ⟨(lngToX_piecewise 90).1 (by norm_num), (lngToX_piecewise 200).2.1 (by norm_num)⟩

/-- C4: `packColor` combines the per-channel quantisations `round(c*128)` as
the base-129 mixed-radix number `qr + qb*129 + qg*129²`; the mixed-radix
decomposition of the packed scalar recovers exactly `(qr, qb, qg)`, so
`packColor` is deterministic (it is a function) and injective over the
quantisation grid. -/
theorem packColor_mixed_radix (r g b : ℚ)
    (hr0 : 0 ≤ r) (hr1 : r ≤ 1) (hg0 : 0 ≤ g) (hg1 : g ≤ 1)
    (hb0 : 0 ≤ b) (hb1 : b ≤ 1) :
    packColor (r, g, b) = quant r + quant b * 129 + quant g * 129 ^ 2 ∧
    packColor (r, g, b) % 129 = quant r ∧
    (packColor (r, g, b) / 129) % 129 = quant b ∧
    packColor (r, g, b) / 129 ^ 2 = quant g ∧
    (∀ r' g' b', 0 ≤ r' → r' ≤ 1 → 0 ≤ g' → g' ≤ 1 → 0 ≤ b' → b' ≤ 1 →
      packColor (r, g, b) = packColor (r', g', b') →
      quant r = quant r' ∧ quant g = quant g' ∧ quant b = quant b') := by
  have hr := And.intro (quant_nonneg hr0) (quant_le_128 hr1)
  have hg := And.intro (quant_nonneg hg0) (quant_le_128 hg1)
  have hb := And.intro (quant_nonneg hb0) (quant_le_128 hb1)
  have hpack : packColor (r, g, b) = quant r + quant b * 129 + quant g * 129 ^ 2 := by
    show quant r + quant b * 129 + quant g * (129 * 129) = _
    ring
  refine ⟨hpack, by omega, by omega, by omega, ?_⟩
  intro r' g' b' hr0' hr1' hg0' hg1' hb0' hb1' heq
  have hr' := And.intro (quant_nonneg hr0') (quant_le_128 hr1')
  have hg' := And.intro (quant_nonneg hg0') (quant_le_128 hg1')
  have hb' := And.intro (quant_nonneg hb0') (quant_le_128 hb1')
  have hpack' : packColor (r', g', b') = quant r' + quant b' * 129 + quant g' * 129 ^ 2 := by
    show quant r' + quant b' * 129 + quant g' * (129 * 129) = _
    ring
  rw [hpack, hpack'] at heq
  omega

theorem packColor_mixed_radix_witness :
    packColor (1, 1/2, 0) % 129 = quant 1 ∧
    (packColor (1, 1/2, 0) / 129) % 129 = quant 0 ∧
    packColor (1, 1/2, 0) / 129 ^ 2 = quant (1/2) := by
  have h := packColor_mixed_radix 1 (1/2) 0 (by norm_num) (by norm_num)
    (by norm_num) (by norm_num) (by norm_num) (by norm_num)
  exact ⟨h.2.1, h.2.2.1, h.2.2.2.1⟩

/-- C10: for channels in `[0,1]`, `packColor` is a non-negative integer at
most `129³ - 1 = 2146688`, which is below `2^24` — the range in which every
integer is exactly representable in single-precision float. -/
theorem packColor_bounded (r g b : ℚ)
    (hr0 : 0 ≤ r) (hr1 : r ≤ 1) (hg0 : 0 ≤ g) (hg1 : g ≤ 1)
    (hb0 : 0 ≤ b) (hb1 : b ≤ 1) :
    0 ≤ packColor (r, g, b) ∧ packColor (r, g, b) ≤ 129 ^ 3 - 1 ∧
    ((129 : ℤ) ^ 3 - 1 = 2146688) ∧ ((2146688 : ℤ) < 2 ^ 24) := by
  have hr := And.intro (quant_nonneg hr0) (quant_le_128 hr1)
  have hg := And.intro (quant_nonneg hg0) (quant_le_128 hg1)
  have hb := And.intro (quant_nonneg hb0) (quant_le_128 hb1)
  have hpack : packColor (r, g, b) = quant r + quant b * 129 + quant g * (129 * 129) := rfl
  refine ⟨by omega, by omega, by norm_num, by norm_num⟩

theorem packColor_bounded_witness :
    0 ≤ packColor (1, 1, 1) ∧ packColor (1, 1, 1) ≤ 129 ^ 3 - 1 :=
  have h := packColor_bounded 1 1 1 (by norm_num) (by norm_num) (by norm_num)
    (by norm_num) (by norm_num) (by norm_num)
  ⟨h.1, h.2.1⟩

/-- C8: the per-frame matrix starts from the base matrix, scales the x/y
basis columns by `2^zoom` and translates by the negated offset in the
scaled basis; at `zoom = 0` with zero offset it equals the base matrix
unchanged, and increasing `zoom` by one doubles every x/y basis entry
(entries 0-7), for any offset. -/
theorem computeMapMatrix_spec (base : Mat4) (zoom : ℕ) (ox oy : ℚ) :
    computeMapMatrix 0 0 0 base = base ∧
    ((computeMapMatrix (zoom + 1) ox oy base).m0 = 2 * (computeMapMatrix zoom ox oy base).m0 ∧
     (computeMapMatrix (zoom + 1) ox oy base).m1 = 2 * (computeMapMatrix zoom ox oy base).m1 ∧
     (computeMapMatrix (zoom + 1) ox oy base).m2 = 2 * (computeMapMatrix zoom ox oy base).m2 ∧
     (computeMapMatrix (zoom + 1) ox oy base).m3 = 2 * (computeMapMatrix zoom ox oy base).m3 ∧
     (computeMapMatrix (zoom + 1) ox oy base).m4 = 2 * (computeMapMatrix zoom ox oy base).m4 ∧
     (computeMapMatrix (zoom + 1) ox oy base).m5 = 2 * (computeMapMatrix zoom ox oy base).m5 ∧
     (computeMapMatrix (zoom + 1) ox oy base).m6 = 2 * (computeMapMatrix zoom ox oy base).m6 ∧
     (computeMapMatrix (zoom + 1) ox oy base).m7 = 2 * (computeMapMatrix zoom ox oy base).m7) := by
  constructor
  · cases base
    simp [computeMapMatrix, scaleMatrix, translateMatrix]
  · refine ⟨?_, ?_, ?_, ?_, ?_, ?_, ?_, ?_⟩ <;>
      simp [computeMapMatrix, scaleMatrix, translateMatrix, pow_succ] <;> ring
/-! ## Length lemmas for the buffer appends -/

theorem triangleFloats_length (t : Triangle) : (triangleFloats t).length = 9 := rfl

theorem polyVertsFloats_length (triangles : List Triangle) :
    ((triangles.map triangleFloats).flatten).length = 9 * triangles.length := by
  induction triangles with
  | nil => rfl
  | cons t ts ih =>
      simp only [List.map_cons, List.flatten_cons, List.length_append, ih,
        List.length_cons, triangleFloats_length]
      ring

theorem contourFloats_length (c : List Coord) :
    ((c.map (fun xy => [xy.1, xy.2, ((packColor (0, 0, 0) : ℤ) : ℚ)])).flatten).length
      = 3 * c.length := by
  induction c with
  | nil => rfl
  | cons xy c ih =>
      simp only [List.map_cons, List.flatten_cons, List.length_append, ih,
        List.length_cons, List.length_nil]
      ring

theorem borderFloatsOf_length (contours : List (List Coord)) :
    (borderFloatsOf contours).length = 3 * (contours.map List.length).sum := by
  induction contours with
  | nil => rfl
  | cons c cs ih =>
      simp only [borderFloatsOf, List.map_cons, List.flatten_cons, List.length_append,
        List.sum_cons] at *
      rw [contourFloats_length, ih]
      ring

theorem projectContours_lengths (proj : Coord → Coord) (coordinates : List (List Coord)) :
    ((projectContours proj coordinates).map List.length).sum
      = (coordinates.map List.length).sum := by
  induction coordinates with
  | nil => rfl
  | cons c cs ih =>
      simp only [projectContours, List.map_cons, List.sum_cons, List.length_map] at *
      omega

/-! ## Inversion lemmas for the ingestion machine -/

theorem processPolygon_inv {tess : Tess} {proj : Coord → Coord}
    {coordinates : List (List Coord)} {s s' : PolygonsState}
    (h : processPolygon tess proj coordinates s = .ok s') :
    ∃ triangles, tess (projectContours proj coordinates) = .ok triangles ∧
      s' = { s with
        borderFloats := s.borderFloats ++ borderFloatsOf (projectContours proj coordinates)
        borderCount := s.borderCount + (coordinates.map List.length).sum
        floats := s.floats ++ (triangles.map triangleFloats).flatten
        count := s.count + 3 * triangles.length } := by
  rw [processPolygon] at h
  rcases htess : tess (projectContours proj coordinates) with errno | triangles <;>
    rw [htess] at h
  · exact absurd h (by simp)
  · refine ⟨triangles, rfl, ?_⟩
    have h' := h
    injection h' with h''
    rw [← h'']
    have hb : (borderFloatsOf (projectContours proj coordinates)).length / 3
        = (coordinates.map List.length).sum := by
      rw [borderFloatsOf_length, projectContours_lengths]
      omega
    have hp : ((triangles.map triangleFloats).flatten).length / 3 = 3 * triangles.length := by
      rw [polyVertsFloats_length]
      omega
    rw [hb, hp]

theorem processParts_inv {tess : Tess} {proj : Coord → Coord} :
    ∀ {parts : List (List (List Coord))} {p p' : PolygonsState},
      processParts tess proj parts p = .ok p' →
      ∃ news : List ℕ, p'.borderCounts = p.borderCounts ++ news ∧
        news.length = parts.length ∧
        p'.changed = p.changed ∧
        p'.borderFloats.length = p.borderFloats.length + 3 * news.sum := by
  intro parts
  induction parts with
  | nil =>
      intro p p' h
      rw [processParts] at h
      injection h with h'
      exact ⟨[], by simp [← h']⟩
  | cons part parts ih =>
      intro p p' h
      rw [processParts] at h
      rcases hq : processPolygon tess proj part p with errno | q <;> rw [hq] at h
      · exact absurd h (by simp)
      · obtain ⟨triangles, -, hqeq⟩ := processPolygon_inv hq
        obtain ⟨news, hbc, hlen, hch, hbf⟩ := ih h
        subst hqeq
        refine ⟨((part.map List.length).sum) :: news, ?_, by simp [hlen], by simpa using hch, ?_⟩
        · simpa [List.append_assoc] using hbc
        · simp only [List.length_append, borderFloatsOf_length, projectContours_lengths,
            List.sum_cons] at *
          omega

/-! ## Packed values of the fixed colors used by the buffers -/

theorem packColor_red : packColor (1, 0, 0) = 128 := by
  norm_num [packColor, quant]

theorem packColor_black : packColor (0, 0, 0) = 0 := by
  norm_num [packColor, quant]

/-! ## Lemmas about the changePolyColor write loop -/

theorem foldl_set_length (c : ℚ) :
    ∀ (l : List ℕ) (fs : List ℚ),
      (l.foldl (fun fs i => fs.set (i * 3 + 2) c) fs).length = fs.length := by
  intro l
  induction l with
  | nil => intro fs; rfl
  | cons x xs ih => intro fs; rw [List.foldl_cons, ih, List.length_set]

theorem foldl_set_other (c : ℚ) :
    ∀ (l : List ℕ) (fs : List ℚ) (j : ℕ), (∀ i ∈ l, j ≠ i * 3 + 2) →
      (l.foldl (fun fs i => fs.set (i * 3 + 2) c) fs)[j]? = fs[j]? := by
  intro l
  induction l with
  | nil => intro fs j _; rfl
  | cons x xs ih =>
      intro fs j hj
      rw [List.foldl_cons, ih _ _ (fun i hi => hj i (List.mem_cons_of_mem _ hi))]
      exact List.getElem?_set_ne (fun h => hj x (List.mem_cons_self x xs) h.symm)

theorem foldl_set_inside (c : ℚ) :
    ∀ (l : List ℕ) (fs : List ℚ) (i : ℕ), l.Nodup → i ∈ l → i * 3 + 2 < fs.length →
      (l.foldl (fun fs i => fs.set (i * 3 + 2) c) fs)[i * 3 + 2]? = some c := by
  intro l
  induction l with
  | nil => intro fs i _ hi; cases hi
  | cons x xs ih =>
      intro fs i hnd hi hlt
      rw [List.foldl_cons]
      rcases List.mem_cons.mp hi with rfl | hmem
      · have hx : i ∉ xs := (List.nodup_cons.mp hnd).1
        have hne : ∀ i' ∈ xs, i * 3 + 2 ≠ i' * 3 + 2 := by
          intro i' hi' heq
          have : i = i' := by omega
          exact hx (this ▸ hi')
        rw [foldl_set_other c xs _ _ hne]
        exact List.getElem?_set_self hlt
      · exact ih _ _ ((List.nodup_cons.mp hnd).2) hmem
          (by rw [List.length_set]; exact hlt)

/-! ## The claims about the ingestion machine -/

/-- C6: ingesting a single Point feature appends exactly three floats — the
projected x, the projected y, and the packed default point color — to the
point vertex sequence, stamps the feature with the prior point count (its
0-based insertion order), increments the count by one, sets the points
dirty flag, and leaves the polygon buffers untouched. -/
theorem loadFeature_point_spec (tess : Tess) (proj : Coord → Coord)
    (coordinates : Coord) (s s' : LayerState) (st : Stamp)
    (h : loadFeature tess proj (.point coordinates) s = .ok (s', st)) :
    st = .pointIndex s.points.count ∧
    s'.points.floats = s.points.floats ++
      [(proj coordinates).1, (proj coordinates).2,
        ((packColor s.points.defaultColor : ℤ) : ℚ)] ∧
    s'.points.floats.length = s.points.floats.length + 3 ∧
    s'.points.count = s.points.count + 1 ∧
    s'.points.changed = true ∧
    s'.polygons = s.polygons := by
  rw [loadFeature] at h
  injection h with h
  injection h with h1 h2
  subst h1
  subst h2
  exact ⟨rfl, rfl, by simp, rfl, rfl, rfl⟩

theorem loadFeature_point_spec_witness :
    Stamp.pointIndex 0 = .pointIndex initialState.points.count ∧
    pointLoaded.points.floats = initialState.points.floats ++
      [(id ((1 : ℚ), (2 : ℚ))).1, (id ((1 : ℚ), (2 : ℚ))).2,
        ((packColor initialState.points.defaultColor : ℤ) : ℚ)] ∧
    pointLoaded.points.floats.length = initialState.points.floats.length + 3 ∧
    pointLoaded.points.count = initialState.points.count + 1 ∧
    pointLoaded.points.changed = true ∧
    pointLoaded.polygons = initialState.polygons :=
  loadFeature_point_spec tessSquare id (1, 2) initialState pointLoaded (.pointIndex 0)
    (by simp [loadFeature, initialState, pointLoaded, packColor_red, -Prod.mk_zero_zero])

/-- C2 (amended): ingesting a Polygon feature with one outer ring of N
vertices and no holes produces exactly one new BorderCounts entry equal to
N and stamps the feature with the half-open range of fill vertex triples
`[indexStart, indexEnd)`; since each fill triangle contributes three vertex
triples, `indexEnd - indexStart` equals 3 times the number of fill
triangles the tesselation emits (3·(N-2) for a simple N-gon), not the
triangle count itself. -/
theorem loadFeature_polygon_spec (tess : Tess) (proj : Coord → Coord)
    (ring : List Coord) (s s' : LayerState) (st : Stamp) (triangles : List Triangle)
    (htess : tess (projectContours proj [ring]) = .ok triangles)
    (h : loadFeature tess proj (.polygon [ring]) s = .ok (s', st)) :
    st = .polyRange s.polygons.count s'.polygons.count ∧
    s'.polygons.count = s.polygons.count + 3 * triangles.length ∧
    s'.polygons.borderCounts = s.polygons.borderCounts ++ [ring.length] ∧
    s'.polygons.changed = true := by
  rw [loadFeature] at h
  rcases hq : processPolygon tess proj [ring] s.polygons with e | q <;> rw [hq] at h
  · exact absurd h (by simp)
  · obtain ⟨tris, htess', hqeq⟩ := processPolygon_inv hq
    rw [htess'] at htess
    injection htess with htris
    subst htris
    injection h with h
    injection h with h1 h2
    subst h1
    subst h2
    subst hqeq
    refine ⟨rfl, by simp, ?_, rfl⟩
    simp

theorem loadFeature_polygon_spec_witness :
    Stamp.polyRange 0 6
      = .polyRange initialState.polygons.count squareLoaded.polygons.count ∧
    squareLoaded.polygons.count
      = initialState.polygons.count + 3 * squareTriangles.length ∧
    squareLoaded.polygons.borderCounts
      = initialState.polygons.borderCounts ++ [squareRing.length] ∧
    squareLoaded.polygons.changed = true :=
  loadFeature_polygon_spec tessSquare id squareRing initialState squareLoaded
    (.polyRange 0 6) squareTriangles
    (by simp [projectContours, tessSquare, squareRing])
    (by simp [loadFeature, processPolygon, projectContours, borderFloatsOf, tessSquare,
      squareRing, squareTriangles, triangleFloats, vertexCallback, initialState,
      squareLoaded, packColor_red, packColor_black, -Prod.mk_zero_zero])

/-- C2 counterexample: ingesting the unit square (N = 4, no holes) with a
tesselator that emits 2 = N - 2 fill triangles stamps the range [0, 6):
`indexEnd - indexStart` is 6, not the fill-triangle count N - 2 = 2 the
claim asserts (the BorderCounts entry of 4 = N is as claimed). -/
theorem loadFeature_polygon_counterexample :
    loadFeature tessSquare id (.polygon [squareRing]) initialState
      = .ok (squareLoaded, .polyRange 0 6) ∧
    squareTriangles.length = 2 ∧
    squareLoaded.polygons.borderCounts = [squareRing.length] ∧
    (6 : ℕ) - 0 ≠ squareRing.length - 2 := by
  refine ⟨?_, rfl, by simp [squareLoaded, squareRing], by simp [squareRing]⟩
  simp [loadFeature, processPolygon, projectContours, borderFloatsOf, tessSquare,
    squareRing, squareTriangles, triangleFloats, vertexCallback, initialState,
    squareLoaded, packColor_red, packColor_black, -Prod.mk_zero_zero]

/-- C5: ingesting a MultiPolygon feature with k constituent polygons appends
exactly k new BorderCounts entries (one per part), records indexStart once
before the loop as the fill-triple count before ingestion and indexEnd once
after all parts as the count after — one single contiguous fill range — and
sets the polygons dirty flag. -/
theorem loadFeature_multiPolygon_spec (tess : Tess) (proj : Coord → Coord)
    (parts : List (List (List Coord))) (s s' : LayerState) (st : Stamp)
    (h : loadFeature tess proj (.multiPolygon parts) s = .ok (s', st)) :
    st = .polyRange s.polygons.count s'.polygons.count ∧
    (∃ news : List ℕ, s'.polygons.borderCounts = s.polygons.borderCounts ++ news ∧
      news.length = parts.length) ∧
    s'.polygons.changed = true := by
  rw [loadFeature] at h
  rcases hq : processParts tess proj parts s.polygons with e | q <;> rw [hq] at h
  · exact absurd h (by simp)
  · obtain ⟨news, hbc, hlen, -, -⟩ := processParts_inv hq
    injection h with h
    injection h with h1 h2
    subst h1
    subst h2
    exact ⟨rfl, ⟨news, by simpa using hbc, hlen⟩, rfl⟩

theorem loadFeature_multiPolygon_spec_witness :
    Stamp.polyRange 0 0
      = .polyRange initialState.polygons.count emptyPartsLoaded.polygons.count ∧
    (∃ news : List ℕ, emptyPartsLoaded.polygons.borderCounts
        = initialState.polygons.borderCounts ++ news ∧
      news.length = ([[], []] : List (List (List Coord))).length) ∧
    emptyPartsLoaded.polygons.changed = true :=
  loadFeature_multiPolygon_spec tessSquare id [[], []] initialState emptyPartsLoaded
    (.polyRange 0 0)
    (by simp [loadFeature, processParts, processPolygon, projectContours, borderFloatsOf,
      tessSquare, squareRing, initialState, emptyPartsLoaded])

/-- The BorderCounts bookkeeping of one ingested feature: if the sum of the
entries is a third of the border float count before, it is after. -/
theorem loadFeature_borderSum (tess : Tess) (proj : Coord → Coord)
    {g : Geometry} {s s' : LayerState} {st : Stamp}
    (h : loadFeature tess proj g s = .ok (s', st))
    (hinv : 3 * s.polygons.borderCounts.sum = s.polygons.borderFloats.length) :
    3 * s'.polygons.borderCounts.sum = s'.polygons.borderFloats.length := by
  cases g with
  | point coordinates =>
      rw [loadFeature] at h
      injection h with h
      injection h with h1 h2
      subst h1
      simpa using hinv
  | polygon coordinates =>
      rw [loadFeature] at h
      rcases hq : processPolygon tess proj coordinates s.polygons with e | q <;> rw [hq] at h
      · exact absurd h (by simp)
      · obtain ⟨tris, -, hqeq⟩ := processPolygon_inv hq
        injection h with h
        injection h with h1 h2
        subst h1
        subst hqeq
        simp only [List.sum_append, List.length_append, borderFloatsOf_length,
          projectContours_lengths, List.sum_cons, List.sum_nil]
        omega
  | multiPolygon coordinates =>
      rw [loadFeature] at h
      rcases hq : processParts tess proj coordinates s.polygons with e | q <;> rw [hq] at h
      · exact absurd h (by simp)
      · obtain ⟨news, hbc, -, -, hbf⟩ := processParts_inv hq
        injection h with h
        injection h with h1 h2
        subst h1
        simp only [] at *
        rw [hbc, List.sum_append] at *
        omega
  | otherType =>
      rw [loadFeature] at h
      injection h with h
      injection h with h1 h2
      subst h1
      exact hinv

/-- The same bookkeeping along a whole payload. -/
theorem loadData_borderSum (tess : Tess) (proj : Coord → Coord) :
    ∀ {payload : List Geometry} {s s' : LayerState} {stamps : List Stamp},
      loadData tess proj payload s = .ok (s', stamps) →
      3 * s.polygons.borderCounts.sum = s.polygons.borderFloats.length →
      3 * s'.polygons.borderCounts.sum = s'.polygons.borderFloats.length := by
  intro payload
  induction payload with
  | nil =>
      intro s s' stamps h hinv
      rw [loadData] at h
      injection h with h
      injection h with h1 h2
      subst h1
      exact hinv
  | cons g gs ih =>
      intro s s' stamps h hinv
      rw [loadData] at h
      split at h
      · exact absurd h (by simp)
      · next s1 st h1 =>
          split at h
          · exact absurd h (by simp)
          · next s2 sts h2 =>
              injection h with h
              injection h with ha hb
              subst ha
              exact ih h2 (loadFeature_borderSum tess proj h1 hinv)

/-- C7: the sum of all BorderCounts entries equals the polygon-border vertex
sequence length divided by 3 (each border vertex occupies three floats);
the invariant holds in the initial state and is preserved by ingesting any
payload — in particular by any Polygon or MultiPolygon feature. -/
theorem loadData_borderCounts_invariant (tess : Tess) (proj : Coord → Coord)
    (payload : List Geometry) (s s' : LayerState) (stamps : List Stamp)
    (hinv : 3 * s.polygons.borderCounts.sum = s.polygons.borderFloats.length)
    (h : loadData tess proj payload s = .ok (s', stamps)) :
    3 * s'.polygons.borderCounts.sum = s'.polygons.borderFloats.length ∧
    s'.polygons.borderCounts.sum = s'.polygons.borderFloats.length / 3 ∧
    3 * initialState.polygons.borderCounts.sum
      = initialState.polygons.borderFloats.length := by
  have h3 := loadData_borderSum tess proj h hinv
  exact ⟨h3, by omega, by simp [initialState]⟩

theorem loadData_borderCounts_invariant_witness :
    3 * squareLoaded.polygons.borderCounts.sum
      = squareLoaded.polygons.borderFloats.length ∧
    squareLoaded.polygons.borderCounts.sum
      = squareLoaded.polygons.borderFloats.length / 3 ∧
    3 * initialState.polygons.borderCounts.sum
      = initialState.polygons.borderFloats.length :=
  loadData_borderCounts_invariant tessSquare id [.polygon [squareRing]]
    initialState squareLoaded [.polyRange 0 6]
    (by simp [initialState])
    (by simp [loadData, loadFeature, processPolygon, projectContours, borderFloatsOf,
      tessSquare, squareRing, squareTriangles, triangleFloats, vertexCallback,
      initialState, squareLoaded, packColor_red, packColor_black, -Prod.mk_zero_zero])

/-- C1 (amended): when the tesselator reports a fatal error on a feature of
the payload, the exception thrown by the error callback propagates out of
`loadData` — which has no per-feature try/catch — so ingestion of that
feature and of all remaining features of the payload is aborted: a single
malformed polygon aborts the whole load. -/
theorem loadData_tessError_aborts (tess : Tess) (proj : Coord → Coord)
    (g : Geometry) (gs : List Geometry) (s : LayerState) (errno : ℕ)
    (h : loadFeature tess proj g s = .error errno) :
    loadData tess proj (g :: gs) s = .error errno := by
  rw [loadData, h]

theorem loadData_tessError_aborts_witness :
    loadData tessFailing id [.polygon [degenerateRing], .otherType] initialState
      = .error 100151 :=
  loadData_tessError_aborts tessFailing id (.polygon [degenerateRing]) [.otherType]
    initialState 100151
    (by simp [loadFeature, processPolygon, projectContours, tessFailing,
      degenerateRing, initialState])

/-- C1 counterexample: a payload holding a malformed polygon (on which the
tesselator reports fatal error 100151) followed by a well-formed Point
feature makes the whole load abort with that error — the Point is never
ingested, refuting the claim that ingestion of the remaining features of
the payload continues. -/
theorem loadData_tessError_counterexample :
    loadData tessFailing id [.polygon [degenerateRing], .point (3, 4)] initialState
      = .error 100151 := by
  simp [loadData, loadFeature, processPolygon, projectContours, tessFailing,
    degenerateRing, initialState]

/-- C3 (amended): the call `changePolyColor idxStart idxEnd color` overwrites the 3rd
float of every vertex triple whose index lies in the CLOSED range
`[idxStart, idxEnd]` — the loop runs `i <= idxEnd`, one triple beyond the
half-open range — overwrites no float at any other position (in particular
every x and y component is unchanged), and sets the polygons dirty flag. -/
theorem changePolyColor_spec (idxStart idxEnd : ℕ) (color : ℚ × ℚ × ℚ)
    (p : PolygonsState) :
    (changePolyColor idxStart idxEnd color p).changed = true ∧
    (changePolyColor idxStart idxEnd color p).floats.length = p.floats.length ∧
    (∀ i, idxStart ≤ i → i ≤ idxEnd → i * 3 + 2 < p.floats.length →
      (changePolyColor idxStart idxEnd color p).floats[i * 3 + 2]?
        = some ((packColor color : ℤ) : ℚ)) ∧
    (∀ j, (∀ i, idxStart ≤ i → i ≤ idxEnd → j ≠ i * 3 + 2) →
      (changePolyColor idxStart idxEnd color p).floats[j]? = p.floats[j]?) := by
  refine ⟨rfl, foldl_set_length _ _ _, ?_, ?_⟩
  · intro i h1 h2 h3
    exact foldl_set_inside _ _ _ _ (List.nodup_range' _ _)
      (List.mem_range'_1.mpr ⟨h1, by omega⟩) h3
  · intro j hj
    refine foldl_set_other _ _ _ _ ?_
    intro i hi
    have := List.mem_range'_1.mp hi
    exact hj i this.1 (by omega)

theorem changePolyColor_spec_witness :
    (changePolyColor 0 1 (1, 0, 0) demoPolyState).changed = true ∧
    (changePolyColor 0 1 (1, 0, 0) demoPolyState).floats[5]?
      = some ((packColor (1, 0, 0) : ℤ) : ℚ) ∧
    (changePolyColor 0 1 (1, 0, 0) demoPolyState).floats[3]?
      = demoPolyState.floats[3]? := by
  have h := changePolyColor_spec 0 1 (1, 0, 0) demoPolyState
  refine ⟨h.1, ?_, h.2.2.2 3 (by intro i h1 h2; omega)⟩
  have := h.2.2.1 1 (by omega) (by omega) (by simp [demoPolyState])
  simpa using this

/-- C3 counterexample: on a buffer of two vertex triples,
`changePolyColor 0 1` also overwrites the color of triple 1, although the
index 1 lies outside the half-open range `[0, 1)` the claim asserts is the
set of affected triples. -/
theorem changePolyColor_counterexample :
    (changePolyColor 0 1 (1, 0, 0) demoPolyState).floats = [0, 0, 128, 0, 0, 128] ∧
    ¬ (1 : ℕ) < 1 := by
  refine ⟨?_, by omega⟩
  simp [changePolyColor, demoPolyState, List.range', packColor_red, -Prod.mk_zero_zero,
    List.set]

end WebGLLayer
